import Mathlib

/-!
# Shallow embedding of the change-impact analyzer

This file embeds the core of the analyzer (graph construction over a
filesystem model, import resolution, and impact propagation) and proves
the specification's claims about it.

The analyzer's source is a TypeScript module whose core functions are
`buildDependencyTree`, `resolveImportPath`, `analyzeImpact` and
`determineImpactReason`.  JavaScript `Map`s iterated in insertion order
are embedded as association lists (`List (String × List String)`),
JavaScript `Set`s used only for membership tests are embedded as
`List String` queried by membership, and the filesystem / parser
collaborators are abstracted into an explicit environment structure.
-/

namespace Analyzer

/-- The `DependencyNode` interface of the source: a file, the change
kind carried by the node, an optional reason and the ordered children. -/
structure DependencyNode where
  file : String
  changeType : String
  reason : Option String
  children : List DependencyNode

mutual

/-- All nodes of an impact tree, root first, depth-first. -/
def allNodes : DependencyNode → List DependencyNode
  | ⟨f, c, r, children⟩ => ⟨f, c, r, children⟩ :: allNodesList children

/-- All nodes of a forest of impact trees, depth-first. -/
def allNodesList : List DependencyNode → List DependencyNode
  | [] => []
  | n :: ns => allNodes n ++ allNodesList ns

end

/-- The files occurring in an impact tree, with multiplicity. -/
def nodeFiles (t : DependencyNode) : List String :=
  (allNodes t).map (·.file)

/-- The files occurring in a forest of impact trees, with multiplicity. -/
def forestFiles (ts : List DependencyNode) : List String :=
  (allNodesList ts).map (·.file)

/-! ## Map and set primitives

`Map.set`, `Map.get`, `Set.add` of JavaScript, on association lists that
keep insertion order (a JS `Map` iterates in key-insertion order, a JS
`Set` in element-insertion order). -/

/-- `m.get(k)` on a JS `Map`. -/
def mapGet (m : List (String × List String)) (k : String) : Option (List String) :=
  (m.find? (fun e => e.1 == k)).map Prod.snd

/-- `m.set(k, v)` on a JS `Map`: replace in place if the key is present,
otherwise append, preserving key-insertion order. -/
def mapSet (m : List (String × List String)) (k : String) (v : List String) :
    List (String × List String) :=
  if m.any (fun e => e.1 == k) then m.map (fun e => if e.1 == k then (e.1, v) else e)
  else m ++ [(k, v)]

/-- `s.add(v)` on a JS `Set`: append unless already present. -/
def setAdd (s : List String) (v : String) : List String :=
  if v ∈ s then s else s ++ [v]

/-- `m.get(k)?.add(v)`: add `v` to the set stored at `k`; no effect when
the key is absent (optional chaining). -/
def mapAddToSet (m : List (String × List String)) (k v : String) :
    List (String × List String) :=
  m.map (fun e => if e.1 == k then (e.1, setAdd e.2 v) else e)

/-! ## Filesystem and parser collaborators -/

/-- The parts of the platform the analyzer consults: the finite set of
paths that exist as regular files (`fs.stat(..).isFile()`), the working
directory, and the opaque path arithmetic of the `path` module
(`path.resolve(...)`, `path.dirname`, `path.join`). -/
structure FsEnv where
  files : List String
  cwd : String
  presolve : List String → String
  dirname : String → String
  join : String → String → String

/-- `fs.stat(p)` succeeds with `isFile()` exactly on the recorded regular
files. -/
def FsEnv.isFile (env : FsEnv) (p : String) : Bool :=
  env.files.contains p

/-- The fixed ordered extension list of `resolveImportPath`. -/
def extensions : List String := [".ts", ".tsx", ".js", ".jsx"]

/-- `s.startsWith(prefix)` of JavaScript: a character-prefix test, phrased
over the character list so that concrete instances evaluate by `decide`. -/
def strStartsWith (s pre : String) : Bool :=
  pre.data.isPrefixOf s.data

/-- `s.slice(n)` of JavaScript: drop the first `n` characters. -/
def strDrop (s : String) (n : Nat) : String :=
  ⟨s.data.drop n⟩

/-- The `resolvedPath` computation of `resolveImportPath`: alias rewriting
(`path.resolve(process.cwd(), 'src', importPath.slice(2))`) or relative
resolution (`path.resolve(path.dirname(currentFile), importPath)`). -/
def rewriteSpecifier (env : FsEnv) (currentFile importPath : String) : String :=
  if strStartsWith importPath "@/" then env.presolve [env.cwd, "src", strDrop importPath 2]
  else env.presolve [env.dirname currentFile, importPath]

/-- The probing loops of `resolveImportPath`: the literal `resolvedPath`,
then `resolvedPath + ext` for each extension in order, then
`path.join(resolvedPath, 'index' + ext)` for each extension in order;
the first probe whose `fs.stat` reports a regular file wins. -/
def probeResolved (env : FsEnv) (resolvedPath : String) : Option String :=
  if env.isFile resolvedPath then some resolvedPath
  else
    match extensions.findSome? (fun ext =>
        if env.isFile (resolvedPath ++ ext) then some (resolvedPath ++ ext) else none) with
    | some p => some p
    | none =>
      extensions.findSome? (fun ext =>
        if env.isFile (env.join resolvedPath ("index" ++ ext)) then
          some (env.join resolvedPath ("index" ++ ext))
        else none)

/-- `resolveImportPath(currentFile, importPath)`: bare specifiers (neither
relative nor `@/`-aliased) are external and unresolved; otherwise the
rewritten path is probed. -/
def resolveImportPath (env : FsEnv) (currentFile importPath : String) : Option String :=
  if ¬ strStartsWith importPath "." ∧ ¬ strStartsWith importPath "@/" then none
  else probeResolved env (rewriteSpecifier env currentFile importPath)

/-- A project: the platform environment plus the source inspector, which
for a readable, well-formed file returns its raw import specifiers and
its export names in source order, and fails (`none`) on malformed
content. -/
structure Project where
  env : FsEnv
  source : String → Option (List String × List String)

/-- Reading and parsing a file (`fs.readFile` + `parser.parse` +
`traverse`): `fs.readFile` fails on any path that is not a regular file,
and parsing may fail even on an existing file. -/
def Project.inspect (P : Project) (p : String) : Option (List String × List String) :=
  if P.env.isFile p then P.source p else none

/-! ## Reason policy -/

/-- `fileExports?.has(exp)` with `fileExports : Set | undefined`. -/
def hasExport (fileExports : Option (List String)) (e : String) : Bool :=
  match fileExports with
  | some s => s.contains e
  | none => false

/-- `determineImpactReason(changedFile, dependentFile, context)`: the pure
reason policy of the source. `dependentFile` is only logged there, never
used. -/
def determineImpactReason (changedFile dependentFile changeType : String)
    (modifiedExports : List String) (exps : List (String × List String)) : String :=
  if changeType = "delete" then "File was deleted"
  else if changeType = "add" then "New file was added"
  else if changeType = "modify" ∧ 0 < modifiedExports.length then
    let fileExports := mapGet exps changedFile
    if modifiedExports.any (hasExport fileExports) then
      "Modified exports: " ++ String.intercalate ", " modifiedExports
    else "File was modified"
  else "File was modified"

/-! ## Termination measures

Both recursive walks are guarded by a visited set that only grows; the
measure counts the relevant universe (regular files, graph keys) not yet
visited. -/

/-- Cardinality of `s` minus the elements of the list `v`. -/
def unseenCard (s : Finset String) (v : List String) : Nat :=
  (s \ v.toFinset).card

lemma unseenCard_le (s : Finset String) {v w : List String}
    (h : ∀ x ∈ v, x ∈ w) : unseenCard s w ≤ unseenCard s v := by
  apply Finset.card_le_card
  apply Finset.sdiff_subset_sdiff (le_refl s)
  intro x hx
  rw [List.mem_toFinset] at hx ⊢
  exact h x hx

lemma unseenCard_cons_lt (s : Finset String) {v : List String} {f : String}
    (hf : f ∈ s) (hv : f ∉ v) : unseenCard s (f :: v) < unseenCard s v := by
  apply Finset.card_lt_card
  constructor
  · apply Finset.sdiff_subset_sdiff (le_refl s)
    intro x hx
    rw [List.mem_toFinset] at hx ⊢
    exact List.mem_cons_of_mem _ hx
  · intro hsub
    have hmem : f ∈ s \ v.toFinset := by
      rw [Finset.mem_sdiff, List.mem_toFinset]; exact ⟨hf, hv⟩
    have := hsub hmem
    rw [Finset.mem_sdiff, List.mem_toFinset] at this
    exact this.2 (List.mem_cons_self _ _)

/-! ## Graph construction -/

/-- The mutable state of `buildDependencyTree`: the `dependencies` and
`exports` maps and the `processedFiles` set. -/
structure BuildState where
  dependencies : List (String × List String)
  exports : List (String × List String)
  processed : List String

/-- Regular files not yet processed. -/
def remainingFiles (P : Project) (st : BuildState) : Nat :=
  unseenCard P.env.files.toFinset st.processed

lemma inspect_mem_files {P : Project} {p : String} {v : List String × List String}
    (h : P.inspect p = some v) : p ∈ P.env.files := by
  unfold Project.inspect at h
  by_cases hf : P.env.isFile p
  · unfold FsEnv.isFile at hf
    exact List.mem_of_elem_eq_true hf
  · simp [hf] at h

mutual

/-- `buildDependencyTree(filePath, dependencies, exports, processedFiles)`:
skip already-processed files, mark the file processed, inspect it; on
failure contribute nothing further, on success create the file's (empty)
dependency entry and its export entry, then process its imports in
order. -/
def buildDependencyTree (P : Project) (filePath : String) (st : BuildState) :
    BuildState :=
  if hproc : filePath ∈ st.processed then st
  else
    match hins : P.inspect filePath with
    | none => { st with processed := filePath :: st.processed }
    | some (imps, exps) =>
      processImports P filePath imps
        { dependencies := mapSet st.dependencies filePath []
          exports := mapSet st.exports filePath (exps.foldl setAdd [])
          processed := filePath :: st.processed }
termination_by (remainingFiles P st, 0)
decreasing_by
  apply Prod.Lex.left
  exact unseenCard_cons_lt _ (List.mem_toFinset.mpr (inspect_mem_files hins)) hproc

/-- The `for (const importSource of pendingImports)` loop: resolve each
specifier, drop unresolved ones, record the edge, and recurse into the
target when it has not been processed yet. -/
def processImports (P : Project) (filePath : String) (imports : List String)
    (st : BuildState) : BuildState :=
  match imports with
  | [] => st
  | imp :: rest =>
    match resolveImportPath P.env filePath imp with
    | none => processImports P filePath rest st
    | some p =>
      let st1 : BuildState := { st with dependencies := mapAddToSet st.dependencies filePath p }
      if hp : p ∈ st1.processed then processImports P filePath rest st1
      else
        let r := buildDependencyTree P p st1
        -- `r.processed` already contains every element of `st1.processed`
        -- (the walk only adds to the set); appending the old list changes
        -- no membership and makes the measure's monotonicity syntactic.
        processImports P filePath rest { r with processed := r.processed ++ st1.processed }
termination_by (remainingFiles P st, imports.length + 1)
decreasing_by
  · apply Prod.Lex.right
    simp only [List.length_cons]
    omega
  · apply Prod.Lex.right
    simp only [List.length_cons]
    omega
  · apply Prod.Lex.right
    simp only [List.length_cons]
    omega
  · rcases Nat.lt_or_ge (remainingFiles P { r with processed := r.processed ++ st1.processed })
      (remainingFiles P st) with hlt | hge
    · exact Prod.Lex.left _ _ hlt
    · have hle : remainingFiles P { r with processed := r.processed ++ st1.processed } ≤
          remainingFiles P st := by
        apply unseenCard_le
        intro x hx
        exact List.mem_append_right _ hx
      have heq : remainingFiles P { r with processed := r.processed ++ st1.processed } =
          remainingFiles P st := le_antisymm hle hge
      rw [heq]
      apply Prod.Lex.right
      simp only [List.length_cons]
      omega

end

/-! ## Impact analysis -/

/-- Graph keys not yet in the impact-time visited set. -/
def unvisitedKeys (g : List (String × List String)) (visited : List String) : Nat :=
  unseenCard (g.map Prod.fst).toFinset visited

/-- The `for (const [file, deps] of dependencies.entries())` loop of
`analyzeImpact`, together with the nested recursive `analyzeImpact` call:
`entries` is the still-unscanned suffix of the graph's entry list, and
the result is the list of children built so far plus the visited set as
left after the walk.  A dependent that passes the guard is marked
visited, gets its reason from the policy, and (the reason strings being
truthy) is analyzed recursively with the change kind forced to
`"affected"`; the child node carries that reason.  `hsub` records that
the scanned suffix comes from the graph itself, which bounds the walk. -/
def impactAux (g exps : List (String × List String)) (mods : List String)
    (changedFile changeType : String) (entries : List (String × List String))
    (visited : List String) (hsub : entries.Sublist g) :
    List DependencyNode × List String :=
  match entries, hsub with
  | [], _ => ([], visited)
  | (file, deps) :: rest, h =>
    have hrest : rest.Sublist g := (List.sublist_cons_self (file, deps) rest).trans h
    if hguard : changedFile ∈ deps ∧ file ∉ visited then
      let reason := determineImpactReason changedFile file changeType mods exps
      if reason ≠ "" then
        let child := impactAux g exps mods file "affected" g (file :: visited) (List.Sublist.refl g)
        -- `child.2` already contains `file :: visited`: appending it does
        -- not change membership and keeps the measure monotone.
        let restRes := impactAux g exps mods changedFile changeType rest
          (child.2 ++ file :: visited) hrest
        (⟨file, "affected", some reason, child.1⟩ :: restRes.1, restRes.2)
      else
        impactAux g exps mods changedFile changeType rest (file :: visited) hrest
    else
      impactAux g exps mods changedFile changeType rest visited hrest
termination_by (unvisitedKeys g visited, entries.length)
decreasing_by
  · apply Prod.Lex.left
    apply unseenCard_cons_lt
    · rw [List.mem_toFinset]
      exact List.mem_map_of_mem Prod.fst (h.subset (List.mem_cons_self _ _))
    · exact hguard.2
  · rcases Nat.lt_or_ge (unvisitedKeys g (child.2 ++ file :: visited))
      (unvisitedKeys g visited) with hlt | hge
    · exact Prod.Lex.left _ _ hlt
    · have hle : unvisitedKeys g (child.2 ++ file :: visited) ≤ unvisitedKeys g visited := by
        apply unseenCard_le
        intro x hx
        exact List.mem_append_right _ (List.mem_cons_of_mem _ hx)
      have heq : unvisitedKeys g (child.2 ++ file :: visited) = unvisitedKeys g visited :=
        le_antisymm hle hge
      rw [heq]
      apply Prod.Lex.right
      simp only [List.length_cons]
      omega
  · rcases Nat.lt_or_ge (unvisitedKeys g (file :: visited)) (unvisitedKeys g visited) with hlt | hge
    · exact Prod.Lex.left _ _ hlt
    · have hle : unvisitedKeys g (file :: visited) ≤ unvisitedKeys g visited := by
        apply unseenCard_le
        intro x hx
        exact List.mem_cons_of_mem _ hx
      have heq : unvisitedKeys g (file :: visited) = unvisitedKeys g visited :=
        le_antisymm hle hge
      rw [heq]
      apply Prod.Lex.right
      simp only [List.length_cons]
      omega
  · apply Prod.Lex.right
    simp only [List.length_cons]
    omega

/-- `analyzeImpact(changedFile, context)`: the result node carries the
changed file, the context's change kind, no reason, and the children
collected by the dependent scan; the visited set is returned alongside,
as the source mutates it in place. -/
def analyzeImpact (g exps : List (String × List String)) (mods : List String)
    (changedFile changeType : String) (visited : List String) :
    DependencyNode × List String :=
  let r := impactAux g exps mods changedFile changeType g visited (List.Sublist.refl g)
  (⟨changedFile, changeType, none, r.1⟩, r.2)

/-- The empty maps and empty processed set created at the start of
`analyzeFileChanges`. -/
def initialState : BuildState := ⟨[], [], []⟩

/-- `analyzeFileChanges(options)`: build the dependency tree from the
entry file, then analyze the impact of the changed file with a fresh
empty impact-time visited set. -/
def analyzeFileChanges (P : Project) (entryFile changedFile changeType : String)
    (modifiedExports : List String) : DependencyNode :=
  let st := buildDependencyTree P entryFile initialState
  (analyzeImpact st.dependencies st.exports modifiedExports changedFile changeType []).1

/-! ## Tree traversal equations -/

@[simp] lemma allNodes_mk (f c : String) (r : Option String) (ch : List DependencyNode) :
    allNodes ⟨f, c, r, ch⟩ = ⟨f, c, r, ch⟩ :: allNodesList ch := by
  rw [allNodes]

@[simp] lemma allNodesList_nil : allNodesList [] = [] := by
  rw [allNodesList]

@[simp] lemma allNodesList_cons (n : DependencyNode) (ns : List DependencyNode) :
    allNodesList (n :: ns) = allNodes n ++ allNodesList ns := by
  rw [allNodesList]

lemma allNodes_eq (n : DependencyNode) : allNodes n = n :: allNodesList n.children := by
  cases n
  simp

@[simp] lemma forestFiles_nil : forestFiles [] = [] := by
  simp [forestFiles]

@[simp] lemma forestFiles_cons (n : DependencyNode) (ns : List DependencyNode) :
    forestFiles (n :: ns) = n.file :: (forestFiles n.children ++ forestFiles ns) := by
  simp [forestFiles, allNodes_eq]

lemma nodeFiles_eq (t : DependencyNode) : nodeFiles t = t.file :: forestFiles t.children := by
  simp [nodeFiles, forestFiles, allNodes_eq]

@[simp] lemma mem_allNodesList_cons {m n : DependencyNode} {ns : List DependencyNode} :
    m ∈ allNodesList (n :: ns) ↔ m = n ∨ m ∈ allNodesList n.children ∨ m ∈ allNodesList ns := by
  simp [allNodes_eq, or_assoc]

/-! ## Step equations for the impact walk -/

lemma impactAux_nil (g exps : List (String × List String)) (mods : List String)
    (cf ct : String) (visited : List String) (h : List.Sublist [] g) :
    impactAux g exps mods cf ct [] visited h = ([], visited) := by
  rw [impactAux]

lemma impactAux_cons_pos (g exps : List (String × List String)) (mods : List String)
    (cf ct file : String) (deps : List String) (rest : List (String × List String))
    (visited : List String) (h : List.Sublist ((file, deps) :: rest) g)
    (hguard : cf ∈ deps ∧ file ∉ visited)
    (hr : determineImpactReason cf file ct mods exps ≠ "") :
    impactAux g exps mods cf ct ((file, deps) :: rest) visited h =
      (⟨file, "affected", some (determineImpactReason cf file ct mods exps),
          (impactAux g exps mods file "affected" g (file :: visited) (List.Sublist.refl g)).1⟩ ::
        (impactAux g exps mods cf ct rest
          ((impactAux g exps mods file "affected" g (file :: visited) (List.Sublist.refl g)).2
            ++ file :: visited) ((List.sublist_cons_self (file, deps) rest).trans h)).1,
       (impactAux g exps mods cf ct rest
          ((impactAux g exps mods file "affected" g (file :: visited) (List.Sublist.refl g)).2
            ++ file :: visited) ((List.sublist_cons_self (file, deps) rest).trans h)).2) := by
  rw [impactAux]
  simp only [dif_pos hguard, if_pos hr]

lemma impactAux_cons_noreason (g exps : List (String × List String)) (mods : List String)
    (cf ct file : String) (deps : List String) (rest : List (String × List String))
    (visited : List String) (h : List.Sublist ((file, deps) :: rest) g)
    (hguard : cf ∈ deps ∧ file ∉ visited)
    (hr : ¬ determineImpactReason cf file ct mods exps ≠ "") :
    impactAux g exps mods cf ct ((file, deps) :: rest) visited h =
      impactAux g exps mods cf ct rest (file :: visited)
        ((List.sublist_cons_self (file, deps) rest).trans h) := by
  rw [impactAux]
  simp only [dif_pos hguard, if_neg hr]

lemma impactAux_cons_skip (g exps : List (String × List String)) (mods : List String)
    (cf ct file : String) (deps : List String) (rest : List (String × List String))
    (visited : List String) (h : List.Sublist ((file, deps) :: rest) g)
    (hguard : ¬ (cf ∈ deps ∧ file ∉ visited)) :
    impactAux g exps mods cf ct ((file, deps) :: rest) visited h =
      impactAux g exps mods cf ct rest visited
        ((List.sublist_cons_self (file, deps) rest).trans h) := by
  rw [impactAux]
  simp only [dif_neg hguard]

lemma impactAux_visited_mono (g exps : List (String × List String)) (mods : List String)
    (cf ct : String) (entries : List (String × List String))
    (visited : List String) (hsub : entries.Sublist g) :
    ∀ x ∈ visited, x ∈ (impactAux g exps mods cf ct entries visited hsub).2 := by
  induction cf, ct, entries, visited, hsub using impactAux.induct g exps mods with
  | case1 cf ct visited hx _ =>
    intro x hxv
    rw [impactAux_nil]
    exact hxv
  | case2 cf ct visited file deps rest h hrest hguard reason hr child hsub ih1 ih2 ih3 ih4 =>
    intro x hxv
    rw [impactAux_cons_pos g exps mods cf ct file deps rest visited h hguard hr]
    exact ih4 x (List.mem_append_right _ (List.mem_cons_of_mem _ hxv))
  | case3 cf ct visited file deps rest h hrest hguard reason hr hsub ih =>
    intro x hxv
    rw [impactAux_cons_noreason g exps mods cf ct file deps rest visited h hguard hr]
    exact ih x (List.mem_cons_of_mem _ hxv)
  | case4 cf ct visited file deps rest h hrest hguard hsub ih =>
    intro x hxv
    rw [impactAux_cons_skip g exps mods cf ct file deps rest visited h hguard]
    exact ih x hxv

lemma impactAux_dependent_visited (g exps : List (String × List String)) (mods : List String)
    (cf ct : String) (entries : List (String × List String))
    (visited : List String) (hsub : entries.Sublist g) :
    ∀ file deps, (file, deps) ∈ entries → cf ∈ deps →
      file ∈ (impactAux g exps mods cf ct entries visited hsub).2 := by
  induction cf, ct, entries, visited, hsub using impactAux.induct g exps mods with
  | case1 cf ct visited hx _ =>
    intro f d hmem
    simp at hmem
  | case2 cf ct visited file deps rest h hrest hguard reason hr child hsub ih1 ih2 ih3 ih4 =>
    intro f d hmem hcf
    rw [impactAux_cons_pos g exps mods cf ct file deps rest visited h hguard hr]
    rcases List.mem_cons.mp hmem with heq | hmem'
    · cases heq
      exact impactAux_visited_mono g exps mods cf ct rest _ _ file
        (List.mem_append_right _ (List.mem_cons_self _ _))
    · exact ih4 f d hmem' hcf
  | case3 cf ct visited file deps rest h hrest hguard reason hr hsub ih =>
    intro f d hmem hcf
    rw [impactAux_cons_noreason g exps mods cf ct file deps rest visited h hguard hr]
    rcases List.mem_cons.mp hmem with heq | hmem'
    · cases heq
      exact impactAux_visited_mono g exps mods cf ct rest _ _ file (List.mem_cons_self _ _)
    · exact ih f d hmem' hcf
  | case4 cf ct visited file deps rest h hrest hguard hsub ih =>
    intro f d hmem hcf
    rw [impactAux_cons_skip g exps mods cf ct file deps rest visited h hguard]
    rcases List.mem_cons.mp hmem with heq | hmem'
    · cases heq
      have hfv : file ∈ visited := by
        by_contra hfv
        exact hguard ⟨hcf, hfv⟩
      exact impactAux_visited_mono g exps mods cf ct rest _ _ file hfv
    · exact ih f d hmem' hcf

lemma impactAux_forest_files (g exps : List (String × List String)) (mods : List String)
    (cf ct : String) (entries : List (String × List String))
    (visited : List String) (hsub : entries.Sublist g) :
    ∀ f ∈ forestFiles (impactAux g exps mods cf ct entries visited hsub).1,
      f ∈ (impactAux g exps mods cf ct entries visited hsub).2 ∧ f ∉ visited := by
  induction cf, ct, entries, visited, hsub using impactAux.induct g exps mods with
  | case1 cf ct visited hx _ =>
    intro f hf
    rw [impactAux_nil] at hf
    simp only [forestFiles_nil] at hf
    exact absurd hf (List.not_mem_nil f)
  | case2 cf ct visited file deps rest h hrest hguard reason hr child hsub ih1 ih2 ih3 ih4 =>
    intro f hf
    rw [impactAux_cons_pos g exps mods cf ct file deps rest visited h hguard hr] at hf ⊢
    rw [forestFiles_cons] at hf
    simp only [List.mem_cons, List.mem_append] at hf
    rcases hf with heq | hchild | hrest'
    · subst heq
      refine ⟨?_, hguard.2⟩
      exact impactAux_visited_mono g exps mods cf ct rest _ _ f
        (List.mem_append_right _ (List.mem_cons_self _ _))
    · have := ih1 f hchild
      refine ⟨?_, fun hv => this.2 (List.mem_cons_of_mem _ hv)⟩
      exact impactAux_visited_mono g exps mods cf ct rest _ _ f
        (List.mem_append_left _ this.1)
    · have := ih4 f hrest'
      exact ⟨this.1, fun hv => this.2
        (List.mem_append_right _ (List.mem_cons_of_mem _ hv))⟩
  | case3 cf ct visited file deps rest h hrest hguard reason hr hsub ih =>
    intro f hf
    rw [impactAux_cons_noreason g exps mods cf ct file deps rest visited h hguard hr] at hf ⊢
    have := ih f hf
    exact ⟨this.1, fun hv => this.2 (List.mem_cons_of_mem _ hv)⟩
  | case4 cf ct visited file deps rest h hrest hguard hsub ih =>
    intro f hf
    rw [impactAux_cons_skip g exps mods cf ct file deps rest visited h hguard] at hf ⊢
    exact ih f hf

lemma impactAux_forest_nodup (g exps : List (String × List String)) (mods : List String)
    (cf ct : String) (entries : List (String × List String))
    (visited : List String) (hsub : entries.Sublist g) :
    (forestFiles (impactAux g exps mods cf ct entries visited hsub).1).Nodup := by
  induction cf, ct, entries, visited, hsub using impactAux.induct g exps mods with
  | case1 cf ct visited hx _ =>
    rw [impactAux_nil]
    simp only [forestFiles_nil]
    exact List.nodup_nil
  | case2 cf ct visited file deps rest h hrest hguard reason hr child hsub ih1 ih2 ih3 ih4 =>
    rw [impactAux_cons_pos g exps mods cf ct file deps rest visited h hguard hr,
      forestFiles_cons]
    refine List.nodup_cons.mpr ⟨?_, List.Nodup.append ih1 ih4 ?_⟩
    · intro hmem
      rcases List.mem_append.mp hmem with hc | hr'
      · exact (impactAux_forest_files g exps mods file "affected" g (file :: visited)
          (List.Sublist.refl g) file hc).2 (List.mem_cons_self _ _)
      · exact (impactAux_forest_files g exps mods cf ct rest _ _ file hr').2
          (List.mem_append_right _ (List.mem_cons_self _ _))
    · intro a hac har
      have h1 := (impactAux_forest_files g exps mods file "affected" g (file :: visited)
        (List.Sublist.refl g) a hac).1
      exact (impactAux_forest_files g exps mods cf ct rest _ _ a har).2
        (List.mem_append_left _ h1)
  | case3 cf ct visited file deps rest h hrest hguard reason hr hsub ih =>
    rw [impactAux_cons_noreason g exps mods cf ct file deps rest visited h hguard hr]
    exact ih
  | case4 cf ct visited file deps rest h hrest hguard hsub ih =>
    rw [impactAux_cons_skip g exps mods cf ct file deps rest visited h hguard]
    exact ih

lemma impactAux_node_shape (g exps : List (String × List String)) (mods : List String)
    (cf ct : String) (entries : List (String × List String))
    (visited : List String) (hsub : entries.Sublist g) :
    ∀ n ∈ allNodesList (impactAux g exps mods cf ct entries visited hsub).1,
      n.changeType = "affected" ∧ ∃ r, n.reason = some r ∧ r ≠ "" := by
  induction cf, ct, entries, visited, hsub using impactAux.induct g exps mods with
  | case1 cf ct visited hx _ =>
    intro n hn
    rw [impactAux_nil] at hn
    simp at hn
  | case2 cf ct visited file deps rest h hrest hguard reason hr child hsub ih1 ih2 ih3 ih4 =>
    intro n hn
    rw [impactAux_cons_pos g exps mods cf ct file deps rest visited h hguard hr] at hn
    rw [mem_allNodesList_cons] at hn
    rcases hn with heq | hchild | hrest'
    · subst heq
      exact ⟨rfl, _, rfl, hr⟩
    · exact ih1 n hchild
    · exact ih4 n hrest'
  | case3 cf ct visited file deps rest h hrest hguard reason hr hsub ih =>
    intro n hn
    rw [impactAux_cons_noreason g exps mods cf ct file deps rest visited h hguard hr] at hn
    exact ih n hn
  | case4 cf ct visited file deps rest h hrest hguard hsub ih =>
    intro n hn
    rw [impactAux_cons_skip g exps mods cf ct file deps rest visited h hguard] at hn
    exact ih n hn

lemma impactAux_child_reason (g exps : List (String × List String)) (mods : List String)
    (cf ct : String) (entries : List (String × List String))
    (visited : List String) (hsub : entries.Sublist g) :
    ∀ t ∈ (impactAux g exps mods cf ct entries visited hsub).1,
      t.reason = some (determineImpactReason cf t.file ct mods exps) := by
  induction cf, ct, entries, visited, hsub using impactAux.induct g exps mods with
  | case1 cf ct visited hx _ =>
    intro t ht
    rw [impactAux_nil] at ht
    simp at ht
  | case2 cf ct visited file deps rest h hrest hguard reason hr child hsub ih1 ih2 ih3 ih4 =>
    intro t ht
    rw [impactAux_cons_pos g exps mods cf ct file deps rest visited h hguard hr] at ht
    rcases List.mem_cons.mp ht with heq | ht'
    · subst heq
      rfl
    · exact ih4 t ht'
  | case3 cf ct visited file deps rest h hrest hguard reason hr hsub ih =>
    intro t ht
    rw [impactAux_cons_noreason g exps mods cf ct file deps rest visited h hguard hr] at ht
    exact ih t ht
  | case4 cf ct visited file deps rest h hrest hguard hsub ih =>
    intro t ht
    rw [impactAux_cons_skip g exps mods cf ct file deps rest visited h hguard] at ht
    exact ih t ht

lemma impactAux_children_order (g exps : List (String × List String)) (mods : List String)
    (cf ct : String) (entries : List (String × List String))
    (visited : List String) (hsub : entries.Sublist g) :
    ((impactAux g exps mods cf ct entries visited hsub).1.map (·.file)).Sublist
      (entries.map Prod.fst) := by
  induction cf, ct, entries, visited, hsub using impactAux.induct g exps mods with
  | case1 cf ct visited hx _ =>
    rw [impactAux_nil]
    simp
  | case2 cf ct visited file deps rest h hrest hguard reason hr child hsub ih1 ih2 ih3 ih4 =>
    rw [impactAux_cons_pos g exps mods cf ct file deps rest visited h hguard hr]
    simpa using List.Sublist.cons₂ file ih4
  | case3 cf ct visited file deps rest h hrest hguard reason hr hsub ih =>
    rw [impactAux_cons_noreason g exps mods cf ct file deps rest visited h hguard hr]
    exact ih.trans (List.sublist_cons_self _ _)
  | case4 cf ct visited file deps rest h hrest hguard hsub ih =>
    rw [impactAux_cons_skip g exps mods cf ct file deps rest visited h hguard]
    exact ih.trans (List.sublist_cons_self _ _)

lemma determineImpactReason_affected (cf df : String) (mods : List String)
    (exps : List (String × List String)) :
    determineImpactReason cf df "affected" mods exps = "File was modified" := by
  simp [determineImpactReason]

lemma determineImpactReason_delete (cf df : String) (mods : List String)
    (exps : List (String × List String)) :
    determineImpactReason cf df "delete" mods exps = "File was deleted" := by
  simp [determineImpactReason]

lemma determineImpactReason_add (cf df : String) (mods : List String)
    (exps : List (String × List String)) :
    determineImpactReason cf df "add" mods exps = "New file was added" := by
  simp [determineImpactReason]

lemma impactAux_subnode_order (g exps : List (String × List String)) (mods : List String)
    (cf ct : String) (entries : List (String × List String))
    (visited : List String) (hsub : entries.Sublist g) :
    ∀ n ∈ allNodesList (impactAux g exps mods cf ct entries visited hsub).1,
      (n.children.map (·.file)).Sublist (g.map Prod.fst) := by
  induction cf, ct, entries, visited, hsub using impactAux.induct g exps mods with
  | case1 cf ct visited hx _ =>
    intro n hn
    rw [impactAux_nil] at hn
    simp at hn
  | case2 cf ct visited file deps rest h hrest hguard reason hr child hsub ih1 ih2 ih3 ih4 =>
    intro n hn
    rw [impactAux_cons_pos g exps mods cf ct file deps rest visited h hguard hr] at hn
    rw [mem_allNodesList_cons] at hn
    rcases hn with heq | hchild | hrest'
    · subst heq
      exact impactAux_children_order g exps mods file "affected" g (file :: visited)
        (List.Sublist.refl g)
    · exact ih1 n hchild
    · exact ih4 n hrest'
  | case3 cf ct visited file deps rest h hrest hguard reason hr hsub ih =>
    intro n hn
    rw [impactAux_cons_noreason g exps mods cf ct file deps rest visited h hguard hr] at hn
    exact ih n hn
  | case4 cf ct visited file deps rest h hrest hguard hsub ih =>
    intro n hn
    rw [impactAux_cons_skip g exps mods cf ct file deps rest visited h hguard] at hn
    exact ih n hn

lemma impactAux_deep_reasons (g exps : List (String × List String)) (mods : List String)
    (cf ct : String) (entries : List (String × List String))
    (visited : List String) (hsub : entries.Sublist g) :
    (ct = "affected" →
      ∀ n ∈ allNodesList (impactAux g exps mods cf ct entries visited hsub).1,
        n.reason = some "File was modified") ∧
    (∀ t ∈ (impactAux g exps mods cf ct entries visited hsub).1,
      ∀ n ∈ allNodesList t.children, n.reason = some "File was modified") := by
  induction cf, ct, entries, visited, hsub using impactAux.induct g exps mods with
  | case1 cf ct visited hx _ =>
    rw [impactAux_nil]
    constructor
    · intro _ n hn
      simp at hn
    · intro t ht
      simp at ht
  | case2 cf ct visited file deps rest h hrest hguard reason hr child hsub ih1 ih2 ih3 ih4 =>
    rw [impactAux_cons_pos g exps mods cf ct file deps rest visited h hguard hr]
    constructor
    · intro hct n hn
      rw [mem_allNodesList_cons] at hn
      rcases hn with heq | hchild | hrest'
      · subst heq
        simp only [hct]
        rw [determineImpactReason_affected]
      · exact ih1.1 rfl n hchild
      · exact ih4.1 hct n hrest'
    · intro t ht
      rcases List.mem_cons.mp ht with heq | ht'
      · subst heq
        intro n hn
        exact ih1.1 rfl n hn
      · exact ih4.2 t ht'
  | case3 cf ct visited file deps rest h hrest hguard reason hr hsub ih =>
    rw [impactAux_cons_noreason g exps mods cf ct file deps rest visited h hguard hr]
    exact ih
  | case4 cf ct visited file deps rest h hrest hguard hsub ih =>
    rw [impactAux_cons_skip g exps mods cf ct file deps rest visited h hguard]
    exact ih

/-! ## Step equations and invariants of the build walk -/

lemma buildDependencyTree_mem (P : Project) (filePath : String) (st : BuildState)
    (hproc : filePath ∈ st.processed) : buildDependencyTree P filePath st = st := by
  rw [buildDependencyTree, dif_pos hproc]

lemma buildDependencyTree_none (P : Project) (filePath : String) (st : BuildState)
    (hproc : filePath ∉ st.processed) (hins : P.inspect filePath = none) :
    buildDependencyTree P filePath st = { st with processed := filePath :: st.processed } := by
  rw [buildDependencyTree, dif_neg hproc]
  split
  · rfl
  · rename_i imps exps heq
    rw [hins] at heq
    cases heq

lemma buildDependencyTree_some (P : Project) (filePath : String) (st : BuildState)
    (imps exps : List String)
    (hproc : filePath ∉ st.processed) (hins : P.inspect filePath = some (imps, exps)) :
    buildDependencyTree P filePath st = processImports P filePath imps
      { dependencies := mapSet st.dependencies filePath []
        exports := mapSet st.exports filePath (exps.foldl setAdd [])
        processed := filePath :: st.processed } := by
  rw [buildDependencyTree, dif_neg hproc]
  split
  · rename_i heq
    rw [hins] at heq
    cases heq
  · rename_i imps2 exps2 heq
    rw [hins] at heq
    cases heq
    rfl

lemma processImports_nil (P : Project) (filePath : String) (st : BuildState) :
    processImports P filePath [] st = st := by
  rw [processImports]

lemma processImports_cons_none (P : Project) (filePath imp : String) (rest : List String)
    (st : BuildState) (hres : resolveImportPath P.env filePath imp = none) :
    processImports P filePath (imp :: rest) st = processImports P filePath rest st := by
  rw [processImports]
  simp only [hres]

lemma processImports_cons_mem (P : Project) (filePath imp p : String) (rest : List String)
    (st : BuildState) (hres : resolveImportPath P.env filePath imp = some p)
    (hp : p ∈ st.processed) :
    processImports P filePath (imp :: rest) st = processImports P filePath rest
      { st with dependencies := mapAddToSet st.dependencies filePath p } := by
  rw [processImports]
  simp only [hres]
  rw [dif_pos hp]

lemma processImports_cons_new (P : Project) (filePath imp p : String) (rest : List String)
    (st : BuildState) (hres : resolveImportPath P.env filePath imp = some p)
    (hp : p ∉ st.processed) :
    processImports P filePath (imp :: rest) st = processImports P filePath rest
      { buildDependencyTree P p { st with dependencies := mapAddToSet st.dependencies filePath p } with
        processed :=
          (buildDependencyTree P p
            { st with dependencies := mapAddToSet st.dependencies filePath p }).processed
          ++ st.processed } := by
  rw [processImports]
  simp only [hres]
  rw [dif_neg hp]

lemma setAdd_mem {s : List String} {v t : String} (h : t ∈ setAdd s v) : t ∈ s ∨ t = v := by
  unfold setAdd at h
  split at h
  · exact Or.inl h
  · rcases List.mem_append.mp h with h1 | h2
    · exact Or.inl h1
    · exact Or.inr (List.mem_singleton.mp h2)

lemma mapSet_mem {m : List (String × List String)} {k : String} {v : List String}
    {kl : String × List String} (h : kl ∈ mapSet m k v) : kl ∈ m ∨ kl.2 = v := by
  unfold mapSet at h
  split at h
  · rcases List.mem_map.mp h with ⟨e, he, heq⟩
    by_cases hk : (e.1 == k) = true
    · rw [if_pos hk] at heq
      exact Or.inr (by rw [← heq])
    · rw [if_neg hk] at heq
      exact Or.inl (heq ▸ he)
  · rcases List.mem_append.mp h with h1 | h2
    · exact Or.inl h1
    · exact Or.inr (by rw [List.mem_singleton.mp h2])

lemma mapAddToSet_mem {m : List (String × List String)} {k v : String}
    {kl : String × List String} (h : kl ∈ mapAddToSet m k v) :
    ∃ kl' ∈ m, kl.2 = kl'.2 ∨ kl.2 = setAdd kl'.2 v := by
  unfold mapAddToSet at h
  rcases List.mem_map.mp h with ⟨e, he, heq⟩
  by_cases hk : (e.1 == k) = true
  · rw [if_pos hk] at heq
    exact ⟨e, he, Or.inr (by rw [← heq])⟩
  · rw [if_neg hk] at heq
    exact ⟨e, he, Or.inl (by rw [← heq])⟩

lemma probeResolved_isFile {env : FsEnv} {r p : String}
    (h : probeResolved env r = some p) : env.isFile p = true := by
  unfold probeResolved at h
  split at h
  · rename_i hfile
    cases h
    exact hfile
  · split at h
    · rename_i q hfind
      cases h
      rcases List.exists_of_findSome?_eq_some hfind with ⟨ext, _, hext⟩
      split at hext
      · rename_i hfile
        cases hext
        exact hfile
      · cases hext
    · rcases List.exists_of_findSome?_eq_some h with ⟨ext, _, hext⟩
      split at hext
      · rename_i hfile
        cases hext
        exact hfile
      · cases hext

lemma resolveImportPath_isFile {env : FsEnv} {cur imp p : String}
    (h : resolveImportPath env cur imp = some p) : env.isFile p = true := by
  unfold resolveImportPath at h
  split at h
  · cases h
  · exact probeResolved_isFile h

lemma processImports_processed_mono (P : Project) :
    ∀ (f : String) (imps : List String) (st : BuildState), ∀ x ∈ st.processed,
      x ∈ (processImports P f imps st).processed := by
  refine processImports.induct P
    (fun f st => ∀ x ∈ st.processed, x ∈ (buildDependencyTree P f st).processed)
    (fun f imps st => ∀ x ∈ st.processed, x ∈ (processImports P f imps st).processed)
    ?_ ?_ ?_ ?_ ?_ ?_ ?_
  · intro f st hproc x hx
    rw [buildDependencyTree_mem P f st hproc]
    exact hx
  · intro f st hproc hins x hx
    rw [buildDependencyTree_none P f st hproc hins]
    exact List.mem_cons_of_mem _ hx
  · intro f st hproc imps exps hins ih x hx
    rw [buildDependencyTree_some P f st imps exps hproc hins]
    exact ih x (List.mem_cons_of_mem _ hx)
  · intro f st x hx
    rw [processImports_nil]
    exact hx
  · intro f st imp rest hres ih x hx
    rw [processImports_cons_none P f imp rest st hres]
    exact ih x hx
  · intro f st imp rest p hres st1 hp ih x hx
    rw [processImports_cons_mem P f imp p rest st hres hp]
    exact ih x hx
  · intro f st imp rest p hres st1 hp r ih1 ih2 ih3 ih4 x hx
    rw [processImports_cons_new P f imp p rest st hres hp]
    exact ih4 x (List.mem_append_right _ hx)

lemma buildDependencyTree_processed_mono (P : Project) (f : String) (st : BuildState) :
    ∀ x ∈ st.processed, x ∈ (buildDependencyTree P f st).processed := by
  intro x hx
  by_cases hproc : f ∈ st.processed
  · rw [buildDependencyTree_mem P f st hproc]
    exact hx
  · match hins : P.inspect f with
    | none =>
      rw [buildDependencyTree_none P f st hproc hins]
      exact List.mem_cons_of_mem _ hx
    | some (imps, exps) =>
      rw [buildDependencyTree_some P f st imps exps hproc hins]
      exact processImports_processed_mono P f imps _ x (List.mem_cons_of_mem _ hx)

lemma buildDependencyTree_self_processed (P : Project) (f : String) (st : BuildState) :
    f ∈ (buildDependencyTree P f st).processed := by
  by_cases hproc : f ∈ st.processed
  · rw [buildDependencyTree_mem P f st hproc]
    exact hproc
  · match hins : P.inspect f with
    | none =>
      rw [buildDependencyTree_none P f st hproc hins]
      exact List.mem_cons_self _ _
    | some (imps, exps) =>
      rw [buildDependencyTree_some P f st imps exps hproc hins]
      exact processImports_processed_mono P f imps _ f (List.mem_cons_self _ _)

def edgesResolved (P : Project) (st : BuildState) : Prop :=
  ∀ kl ∈ st.dependencies, ∀ t ∈ kl.2, P.env.isFile t = true

lemma edgesResolved_mapAddToSet {P : Project} {st : BuildState} {f p : String}
    (h : edgesResolved P st) (hp : P.env.isFile p = true) :
    edgesResolved P { st with dependencies := mapAddToSet st.dependencies f p } := by
  intro kl hkl t ht
  rcases mapAddToSet_mem hkl with ⟨kl', hkl', heq | heq⟩
  · exact h kl' hkl' t (heq ▸ ht)
  · rcases setAdd_mem (heq ▸ ht) with h1 | h2
    · exact h kl' hkl' t h1
    · exact h2 ▸ hp

lemma processImports_edgesResolved (P : Project) :
    ∀ (f : String) (imps : List String) (st : BuildState), edgesResolved P st →
      edgesResolved P (processImports P f imps st) := by
  refine processImports.induct P
    (fun f st => edgesResolved P st → edgesResolved P (buildDependencyTree P f st))
    (fun f imps st => edgesResolved P st → edgesResolved P (processImports P f imps st))
    ?_ ?_ ?_ ?_ ?_ ?_ ?_
  · intro f st hproc h
    rw [buildDependencyTree_mem P f st hproc]
    exact h
  · intro f st hproc hins h
    rw [buildDependencyTree_none P f st hproc hins]
    exact h
  · intro f st hproc imps exps hins ih h
    rw [buildDependencyTree_some P f st imps exps hproc hins]
    apply ih
    intro kl hkl t ht
    rcases mapSet_mem hkl with h1 | h2
    · exact h kl h1 t ht
    · rw [h2] at ht
      exact absurd ht (List.not_mem_nil t)
  · intro f st h
    rw [processImports_nil]
    exact h
  · intro f st imp rest hres ih h
    rw [processImports_cons_none P f imp rest st hres]
    exact ih h
  · intro f st imp rest p hres st1 hp ih h
    rw [processImports_cons_mem P f imp p rest st hres hp]
    exact ih (edgesResolved_mapAddToSet h (resolveImportPath_isFile hres))
  · intro f st imp rest p hres st1 hp r ih1 ih2 ih3 ih4 h
    rw [processImports_cons_new P f imp p rest st hres hp]
    apply ih4
    have hr : edgesResolved P (buildDependencyTree P p st1) :=
      ih1 (edgesResolved_mapAddToSet h (resolveImportPath_isFile hres))
    intro kl hkl t ht
    exact hr kl hkl t ht

lemma buildDependencyTree_edgesResolved (P : Project) (f : String) (st : BuildState)
    (h : edgesResolved P st) : edgesResolved P (buildDependencyTree P f st) := by
  by_cases hproc : f ∈ st.processed
  · rw [buildDependencyTree_mem P f st hproc]
    exact h
  · match hins : P.inspect f with
    | none =>
      rw [buildDependencyTree_none P f st hproc hins]
      exact h
    | some (imps, exps) =>
      rw [buildDependencyTree_some P f st imps exps hproc hins]
      apply processImports_edgesResolved
      intro kl hkl t ht
      rcases mapSet_mem hkl with h1 | h2
      · exact h kl h1 t ht
      · rw [h2] at ht
        exact absurd ht (List.not_mem_nil t)

def resolveCandidates (env : FsEnv) (base : String) : List String :=
  base :: (extensions.map (fun ext => base ++ ext)
    ++ extensions.map (fun ext => env.join base ("index" ++ ext)))

lemma findSome?_guard (p : String → Bool) (f : String → String) :
    ∀ l : List String,
      (l.findSome? fun x => if p (f x) then some (f x) else none) = (l.map f).find? p := by
  intro l
  induction l with
  | nil => simp
  | cons a as ih =>
    by_cases hpa : p (f a)
    · simp [List.findSome?_cons, List.find?_cons, hpa]
    · simp [List.findSome?_cons, List.find?_cons, hpa, ih]

lemma probeResolved_eq_find (env : FsEnv) (base : String) :
    probeResolved env base = (resolveCandidates env base).find? env.isFile := by
  unfold probeResolved resolveCandidates
  by_cases hb : env.isFile base
  · simp [List.find?_cons, hb]
  · simp only [List.find?_cons, hb, if_neg, Bool.false_eq_true, not_false_iff, if_false]
    rw [List.find?_append, ← findSome?_guard env.isFile (fun ext => base ++ ext) extensions,
      ← findSome?_guard env.isFile (fun ext => env.join base ("index" ++ ext)) extensions]
    cases hfs : extensions.findSome? fun ext =>
        if env.isFile (base ++ ext) = true then some (base ++ ext) else none with
    | none => simp [Option.or]
    | some q => simp [Option.or]

lemma hasExport_eq_true {o : Option (List String)} {e : String} :
    hasExport o e = true ↔ ∃ l, o = some l ∧ e ∈ l := by
  cases o with
  | none => simp [hasExport]
  | some s => simp [hasExport, List.elem_iff]

/-- The reason policy in the `modify` case, characterised by the
intersection of the supplied export names with the changed file's
recorded exports. -/
lemma determineImpactReason_modify (cf df : String) (mods : List String)
    (exps : List (String × List String)) :
    determineImpactReason cf df "modify" mods exps =
      if mods ≠ [] ∧ ∃ e ∈ mods, ∃ l, mapGet exps cf = some l ∧ e ∈ l
      then "Modified exports: " ++ String.intercalate ", " mods
      else "File was modified" := by
  unfold determineImpactReason
  rw [if_neg (by decide), if_neg (by decide)]
  by_cases hc : mods ≠ [] ∧ ∃ e ∈ mods, ∃ l, mapGet exps cf = some l ∧ e ∈ l
  · rw [if_pos hc]
    rw [if_pos ⟨rfl, List.length_pos.mpr hc.1⟩]
    rw [if_pos]
    rcases hc.2 with ⟨e, he, hl⟩
    exact List.any_eq_true.mpr ⟨e, he, hasExport_eq_true.mpr hl⟩
  · rw [if_neg hc]
    by_cases hm : mods = []
    · rw [if_neg]
      intro hcon
      rw [hm] at hcon
      simp at hcon
    · rw [if_pos ⟨rfl, List.length_pos.mpr hm⟩]
      rw [if_neg]
      intro hany
      rcases List.any_eq_true.mp hany with ⟨e, he, hex⟩
      exact hc ⟨hm, e, he, hasExport_eq_true.mp hex⟩

/-! ## Concrete fixtures

Small graphs and projects used to instantiate the theorems below. -/

/-- A dependency graph in which `A` and `B` import each other. -/
def cycleGraph : List (String × List String) := [("A", ["B"]), ("B", ["A"])]

/-- A one-edge dependency graph: `B` imports `A`. -/
def lineGraph : List (String × List String) := [("B", ["A"])]

/-- A filesystem with two regular files that import each other. -/
def pairEnv : FsEnv where
  files := ["./a", "./b"]
  cwd := ""
  presolve := fun l => String.join l
  dirname := fun _ => ""
  join := fun a b => a ++ "/" ++ b

/-- A two-file project in which `./a` and `./b` import each other and
`./a` exports `foo`. -/
def pairProject : Project where
  env := pairEnv
  source := fun p =>
    if p = "./a" then some (["./b"], ["foo"])
    else if p = "./b" then some (["./a"], [])
    else none

/-- A filesystem with an entry file, a malformed file and a good file. -/
def failEnv : FsEnv where
  files := ["./e", "./bad", "./good"]
  cwd := ""
  presolve := fun l => String.join l
  dirname := fun _ => ""
  join := fun a b => a ++ "/" ++ b

/-- A project whose entry `./e` imports `./bad` (readable but malformed:
its inspection fails) and `./good` (which exports `g`). -/
def failProject : Project where
  env := failEnv
  source := fun p =>
    if p = "./e" then some (["./bad", "./good"], [])
    else if p = "./good" then some ([], ["g"])
    else none

/-! ## Claims -/

/-- C1 (counterexample): the claim that each FileIdentity appears at most
once across the entire returned impact tree (counting the root) is false:
on the cyclic graph where `A` and `B` import each other, a `modify`
analysis of `A` from the empty visited set returns a tree whose file list
is `["A", "B", "A"]` — the changed file `A` appears twice, because the
impact-time visited set never contains the changed file itself. -/
theorem c1_file_at_most_once_counterexample :
    ¬ ∀ x : String,
      (nodeFiles (analyzeImpact cycleGraph [] [] "A" "modify" []).1).count x ≤ 1 := by
  intro hall
  have he : nodeFiles (analyzeImpact cycleGraph [] [] "A" "modify" []).1 = ["A", "B", "A"] := by
    simp [cycleGraph, analyzeImpact, impactAux, determineImpactReason, nodeFiles,
      allNodes, allNodesList]
  have h := hall "A"
  rw [he] at h
  exact absurd h (by decide)

/-- C1 (amended): in the impact tree returned by an analysis started from
the empty visited set, every FileIdentity other than the changed file
appears at most once; the changed file itself appears at most twice (as
the root, and possibly once more when a dependency cycle leads back to
it). -/
theorem c1_file_at_most_once_amended :
    ∀ (g exps : List (String × List String)) (mods : List String) (cf ct x : String),
      (nodeFiles (analyzeImpact g exps mods cf ct []).1).count x ≤
        if x = cf then 2 else 1 := by
  intro g exps mods cf ct x
  have hnd := impactAux_forest_nodup g exps mods cf ct g [] (List.Sublist.refl g)
  have he : nodeFiles (analyzeImpact g exps mods cf ct []).1
      = cf :: forestFiles (impactAux g exps mods cf ct g [] (List.Sublist.refl g)).1 := by
    rw [nodeFiles_eq]
    rfl
  rw [he]
  have hle := List.nodup_iff_count_le_one.mp hnd x
  by_cases hx : x = cf
  · rw [if_pos hx]
    subst hx
    simp only [List.count_cons_self]
    omega
  · rw [if_neg hx]
    rw [List.count_cons_of_ne hx]
    exact hle

/-- C2: for every analysis run (empty initial visited set), the root of
the returned impact tree carries the changed file, the literal change
kind and no reason, and every non-root node carries the synthetic
`"affected"` kind and a non-empty reason. -/
theorem c2_root_literal_nonroot_affected :
    ∀ (g exps : List (String × List String)) (mods : List String) (cf ct : String),
      (analyzeImpact g exps mods cf ct []).1.file = cf ∧
      (analyzeImpact g exps mods cf ct []).1.changeType = ct ∧
      (analyzeImpact g exps mods cf ct []).1.reason = none ∧
      (∀ n ∈ allNodesList (analyzeImpact g exps mods cf ct []).1.children,
        n.changeType = "affected" ∧ ∃ r, n.reason = some r ∧ r ≠ "") := by
  intro g exps mods cf ct
  refine ⟨rfl, rfl, rfl, ?_⟩
  intro n hn
  exact impactAux_node_shape g exps mods cf ct g [] (List.Sublist.refl g) n hn

/-- C2 (witness): the shape properties hold on the cyclic two-file graph;
in particular the node for `A` reached through the cycle is non-root,
carries `"affected"` and a non-empty reason. -/
theorem c2_root_literal_nonroot_affected_witness :
    (analyzeImpact cycleGraph [] [] "A" "modify" []).1.file = "A" ∧
    (analyzeImpact cycleGraph [] [] "A" "modify" []).1.changeType = "modify" ∧
    (analyzeImpact cycleGraph [] [] "A" "modify" []).1.reason = none ∧
    ((⟨"A", "affected", some "File was modified", []⟩ : DependencyNode) ∈
        allNodesList (analyzeImpact cycleGraph [] [] "A" "modify" []).1.children ∧
      (⟨"A", "affected", some "File was modified", []⟩ : DependencyNode).changeType =
        "affected" ∧
      ∃ r, (⟨"A", "affected", some "File was modified", []⟩ : DependencyNode).reason =
        some r ∧ r ≠ "") := by
  have h := c2_root_literal_nonroot_affected cycleGraph [] [] "A" "modify"
  have hmem : (⟨"A", "affected", some "File was modified", []⟩ : DependencyNode) ∈
      allNodesList (analyzeImpact cycleGraph [] [] "A" "modify" []).1.children := by
    simp [cycleGraph, analyzeImpact, impactAux, determineImpactReason, allNodes, allNodesList]
  exact ⟨h.1, h.2.1, h.2.2.1, hmem, (h.2.2.2 _ hmem).1, (h.2.2.2 _ hmem).2⟩

/-- C3 (counterexample): the claim's reason strings are wrong on the
code: for a direct dependent under `modify`, the intersecting case
produces `"Modified exports: foo"`, not `"modified exports: foo"`, and
the empty-list case produces `"File was modified"`, not
`"file was modified"` (the code capitalises the first letter). -/
theorem c3_modify_reason_counterexample :
    (¬ ∀ n ∈ (analyzeImpact lineGraph [("A", ["foo"])] ["foo"] "A" "modify" []).1.children,
        n.reason = some "modified exports: foo") ∧
    (¬ ∀ n ∈ (analyzeImpact lineGraph [("A", ["foo"])] [] "A" "modify" []).1.children,
        n.reason = some "file was modified") := by
  constructor
  · intro hall
    have hmem : (⟨"B", "affected", some "Modified exports: foo", []⟩ : DependencyNode) ∈
        (analyzeImpact lineGraph [("A", ["foo"])] ["foo"] "A" "modify" []).1.children := by
      have hval : ("Modified exports: " ++ String.intercalate ", " ["foo"]) =
          "Modified exports: foo" := by decide
      simp [lineGraph, analyzeImpact, impactAux, determineImpactReason, mapGet, hasExport, hval]
    have := hall _ hmem
    simp at this
  · intro hall
    have hmem : (⟨"B", "affected", some "File was modified", []⟩ : DependencyNode) ∈
        (analyzeImpact lineGraph [("A", ["foo"])] [] "A" "modify" []).1.children := by
      simp [lineGraph, analyzeImpact, impactAux, determineImpactReason, mapGet, hasExport]
    have := hall _ hmem
    simp at this

/-- C3 (amended): for every direct dependent of the changed file under
`modify`, if the supplied modified-export list is non-empty and intersects
the changed file's recorded exports, the dependent's reason is
`"Modified exports: "` followed by exactly the supplied names,
comma-joined, in the order supplied; otherwise (empty list or no
intersection) the reason is `"File was modified"`. -/
theorem c3_modify_reason_policy_amended :
    ∀ (g exps : List (String × List String)) (mods : List String) (cf : String)
      (visited : List String) (t : DependencyNode),
      t ∈ (analyzeImpact g exps mods cf "modify" visited).1.children →
      ((mods ≠ [] ∧ ∃ e ∈ mods, ∃ l, mapGet exps cf = some l ∧ e ∈ l) →
        t.reason = some ("Modified exports: " ++ String.intercalate ", " mods)) ∧
      (¬ (mods ≠ [] ∧ ∃ e ∈ mods, ∃ l, mapGet exps cf = some l ∧ e ∈ l) →
        t.reason = some "File was modified") := by
  intro g exps mods cf visited t ht
  have hr := impactAux_child_reason g exps mods cf "modify" g visited (List.Sublist.refl g) t ht
  rw [determineImpactReason_modify] at hr
  constructor
  · intro hc
    rw [hr, if_pos hc]
  · intro hc
    rw [hr, if_neg hc]

/-- C3 (witness): both branches of the amended policy, instantiated on
the one-edge graph where `B` imports `A` and `A` records export `foo`. -/
theorem c3_modify_reason_policy_amended_witness :
    ((⟨"B", "affected", some "Modified exports: foo", []⟩ : DependencyNode) ∈
        (analyzeImpact lineGraph [("A", ["foo"])] ["foo"] "A" "modify" []).1.children ∧
      (⟨"B", "affected", some "Modified exports: foo", []⟩ : DependencyNode).reason =
        some ("Modified exports: " ++ String.intercalate ", " ["foo"])) ∧
    ((⟨"B", "affected", some "File was modified", []⟩ : DependencyNode) ∈
        (analyzeImpact lineGraph [("A", ["foo"])] [] "A" "modify" []).1.children ∧
      (⟨"B", "affected", some "File was modified", []⟩ : DependencyNode).reason =
        some "File was modified") := by
  have hmem1 : (⟨"B", "affected", some "Modified exports: foo", []⟩ : DependencyNode) ∈
      (analyzeImpact lineGraph [("A", ["foo"])] ["foo"] "A" "modify" []).1.children := by
    have hval : ("Modified exports: " ++ String.intercalate ", " ["foo"]) =
        "Modified exports: foo" := by decide
    simp [lineGraph, analyzeImpact, impactAux, determineImpactReason, mapGet, hasExport, hval]
  have hmem2 : (⟨"B", "affected", some "File was modified", []⟩ : DependencyNode) ∈
      (analyzeImpact lineGraph [("A", ["foo"])] [] "A" "modify" []).1.children := by
    simp [lineGraph, analyzeImpact, impactAux, determineImpactReason, mapGet, hasExport]
  refine ⟨⟨hmem1, ?_⟩, ⟨hmem2, ?_⟩⟩
  · exact (c3_modify_reason_policy_amended lineGraph [("A", ["foo"])] ["foo"] "A" [] _
      hmem1).1 (by decide)
  · exact (c3_modify_reason_policy_amended lineGraph [("A", ["foo"])] [] "A" [] _
      hmem2).2 (by decide)

/-- C4 (counterexample): the claim's reason string is wrong on the code:
under `delete` a direct dependent's reason is `"File was deleted"`
(capitalised), not `"file was deleted"`. -/
theorem c4_delete_reason_counterexample :
    ¬ ∀ n ∈ (analyzeImpact lineGraph [("A", ["x"])] ["y"] "A" "delete" []).1.children,
        n.reason = some "file was deleted" := by
  intro hall
  have hmem : (⟨"B", "affected", some "File was deleted", []⟩ : DependencyNode) ∈
      (analyzeImpact lineGraph [("A", ["x"])] ["y"] "A" "delete" []).1.children := by
    simp [lineGraph, analyzeImpact, impactAux, determineImpactReason, mapGet, hasExport]
  have := hall _ hmem
  simp at this

/-- C4 (amended): for every direct dependent of the changed file under
`delete`, the reason attached to that dependent's node is
`"File was deleted"`, regardless of the supplied modified-export names
and of the export table. -/
theorem c4_delete_reason_amended :
    ∀ (g exps : List (String × List String)) (mods : List String) (cf : String)
      (visited : List String) (t : DependencyNode),
      t ∈ (analyzeImpact g exps mods cf "delete" visited).1.children →
      t.reason = some "File was deleted" := by
  intro g exps mods cf visited t ht
  have hr := impactAux_child_reason g exps mods cf "delete" g visited (List.Sublist.refl g) t ht
  rw [determineImpactReason_delete] at hr
  exact hr

/-- C4 (witness): the amended claim instantiated with a non-empty
modified-export list and a non-trivial export table. -/
theorem c4_delete_reason_amended_witness :
    (⟨"B", "affected", some "File was deleted", []⟩ : DependencyNode) ∈
      (analyzeImpact lineGraph [("A", ["x"])] ["y"] "A" "delete" []).1.children ∧
    (⟨"B", "affected", some "File was deleted", []⟩ : DependencyNode).reason =
      some "File was deleted" := by
  have hmem : (⟨"B", "affected", some "File was deleted", []⟩ : DependencyNode) ∈
      (analyzeImpact lineGraph [("A", ["x"])] ["y"] "A" "delete" []).1.children := by
    simp [lineGraph, analyzeImpact, impactAux, determineImpactReason, mapGet, hasExport]
  exact ⟨hmem, c4_delete_reason_amended lineGraph [("A", ["x"])] ["y"] "A" [] _ hmem⟩

/-- C5: every node of the returned impact tree at depth two or more (a
dependent of a dependent) carries the reason `"File was modified"`,
regardless of the original change kind and of the supplied
modified-export names, because the recursive call forces the change kind
to `"affected"` and the reason policy falls through to its default. -/
theorem c5_deep_reason_file_was_modified :
    ∀ (g exps : List (String × List String)) (mods : List String) (cf ct : String)
      (visited : List String),
      ∀ t ∈ (analyzeImpact g exps mods cf ct visited).1.children,
        ∀ n ∈ allNodesList t.children, n.reason = some "File was modified" := by
  intro g exps mods cf ct visited t ht n hn
  exact (impactAux_deep_reasons g exps mods cf ct g visited (List.Sublist.refl g)).2 t ht n hn

/-- C5 (witness): on the cyclic graph under a `delete` of `A` with a
supplied export name, the depth-two node for `A` still carries
`"File was modified"`. -/
theorem c5_deep_reason_file_was_modified_witness :
    (⟨"B", "affected", some "File was deleted",
        [⟨"A", "affected", some "File was modified", []⟩]⟩ : DependencyNode) ∈
      (analyzeImpact cycleGraph [("A", ["foo"])] ["foo"] "A" "delete" []).1.children ∧
    (⟨"A", "affected", some "File was modified", []⟩ : DependencyNode) ∈
      allNodesList [(⟨"A", "affected", some "File was modified", []⟩ : DependencyNode)] ∧
    (⟨"A", "affected", some "File was modified", []⟩ : DependencyNode).reason =
      some "File was modified" := by
  have hmem : (⟨"B", "affected", some "File was deleted",
      [⟨"A", "affected", some "File was modified", []⟩]⟩ : DependencyNode) ∈
      (analyzeImpact cycleGraph [("A", ["foo"])] ["foo"] "A" "delete" []).1.children := by
    simp [cycleGraph, analyzeImpact, impactAux, determineImpactReason, mapGet, hasExport]
  have hn : (⟨"A", "affected", some "File was modified", []⟩ : DependencyNode) ∈
      allNodesList [(⟨"A", "affected", some "File was modified", []⟩ : DependencyNode)] := by
    simp [allNodesList, allNodes]
  exact ⟨hmem, hn,
    c5_deep_reason_file_was_modified cycleGraph [("A", ["foo"])] ["foo"] "A" "delete" [] _
      hmem _ hn⟩

/-- C6: graph construction and impact analysis are total functions of
this development (their well-founded recursions are justified by the
visited-set measures), and the visited sets grow monotonically, strictly
on every recursive descent: construction always ends with the visited
file in the build-time set, and the impact walk ends with every dependent
that triggers a descent in the impact-time set.  This holds for every
project, in particular for projects with mutually importing files. -/
theorem c6_termination_and_visited_growth :
    (∀ (P : Project) (f : String) (st : BuildState),
      (∀ x ∈ st.processed, x ∈ (buildDependencyTree P f st).processed) ∧
      f ∈ (buildDependencyTree P f st).processed) ∧
    (∀ (g exps : List (String × List String)) (mods : List String) (cf ct : String)
      (visited : List String),
      (∀ x ∈ visited, x ∈ (analyzeImpact g exps mods cf ct visited).2) ∧
      (∀ file deps, (file, deps) ∈ g → cf ∈ deps →
        file ∈ (analyzeImpact g exps mods cf ct visited).2)) := by
  constructor
  · intro P f st
    exact ⟨buildDependencyTree_processed_mono P f st, buildDependencyTree_self_processed P f st⟩
  · intro g exps mods cf ct visited
    constructor
    · intro x hx
      exact impactAux_visited_mono g exps mods cf ct g visited (List.Sublist.refl g) x hx
    · intro file deps hmem hcf
      exact impactAux_dependent_visited g exps mods cf ct g visited (List.Sublist.refl g)
        file deps hmem hcf

/-- C6 (witness): on the two-file project whose files `./a` and `./b`
mutually import each other, construction from `./a` completes with
`./a` in the build-time visited set, and on the cyclic graph `A ↔ B`
the impact walk
for `A` completes with the dependent `B` in the impact-time visited
set. -/
theorem c6_termination_and_visited_growth_witness :
    "./a" ∈ (buildDependencyTree pairProject "./a" initialState).processed ∧
    (("B", ["A"]) ∈ cycleGraph ∧ "A" ∈ ["A"]) ∧
    "B" ∈ (analyzeImpact cycleGraph [] [] "A" "modify" []).2 := by
  refine ⟨(c6_termination_and_visited_growth.1 pairProject "./a" initialState).2,
    ⟨by decide, by decide⟩, ?_⟩
  exact (c6_termination_and_visited_growth.2 cycleGraph [] [] "A" "modify" []).2
    "B" ["A"] (by decide) (by decide)

/-- C7: the import resolver returns unresolved for bare/external
specifiers (neither alias-prefixed nor relative); otherwise, after alias
or relative rewriting, it probes the candidates in fixed order — the
literal path, the path suffixed with each extension of the fixed list,
then the path as a directory with an `index` file suffixed with each
extension — and returns the first candidate that exists as a regular
file, or unresolved if none does. -/
theorem c7_resolver_external_and_probe_order :
    ∀ (env : FsEnv) (cur imp : String),
      ((¬ strStartsWith imp "." ∧ ¬ strStartsWith imp "@/") →
        resolveImportPath env cur imp = none) ∧
      ((strStartsWith imp "." ∨ strStartsWith imp "@/") →
        resolveImportPath env cur imp =
          (resolveCandidates env (rewriteSpecifier env cur imp)).find? env.isFile) := by
  intro env cur imp
  constructor
  · intro h
    rw [resolveImportPath, if_pos h]
  · intro h
    rw [resolveImportPath, if_neg ?_, probeResolved_eq_find]
    rintro ⟨h1, h2⟩
    rcases h with h | h
    · exact h1 h
    · exact h2 h

/-- C7 (witness): on the two-file filesystem, the bare specifier
`"react"` is unresolved and the relative specifier `"./b"` resolves by
the first-match probe over the candidate list. -/
theorem c7_resolver_external_and_probe_order_witness :
    ((¬ strStartsWith "react" "." ∧ ¬ strStartsWith "react" "@/") ∧
      resolveImportPath pairEnv "./a" "react" = none) ∧
    (strStartsWith "./b" "." = true ∧
      resolveImportPath pairEnv "./a" "./b" =
        (resolveCandidates pairEnv (rewriteSpecifier pairEnv "./a" "./b")).find?
          pairEnv.isFile) := by
  refine ⟨⟨by decide, ?_⟩, by decide, ?_⟩
  · exact (c7_resolver_external_and_probe_order pairEnv "./a" "react").1 (by decide)
  · exact (c7_resolver_external_and_probe_order pairEnv "./a" "./b").2 (Or.inl (by decide))

/-- C8: a file whose read or parse fails during graph construction is
recovered locally: the call marks the file processed and otherwise
returns the maps unchanged — the file contributes no edges and no
exports — and construction continues over the remaining reachable
files. -/
theorem c8_failed_inspection_is_local :
    ∀ (P : Project) (f : String) (st : BuildState),
      f ∉ st.processed → P.inspect f = none →
      buildDependencyTree P f st = { st with processed := f :: st.processed } := by
  intro P f st hproc hins
  exact buildDependencyTree_none P f st hproc hins

/-- C8 (witness): in the project whose entry imports the malformed
`./bad` and the well-formed `./good`, processing `./bad` only marks it
processed, and the full build from the entry still records `./good`'s
exports and edges. -/
theorem c8_failed_inspection_is_local_witness :
    ("./bad" ∉ initialState.processed ∧ failProject.inspect "./bad" = none) ∧
    buildDependencyTree failProject "./bad" initialState =
      { initialState with processed := ["./bad"] } ∧
    (buildDependencyTree failProject "./e" initialState).exports =
      [("./e", []), ("./good", ["g"])] ∧
    (buildDependencyTree failProject "./e" initialState).dependencies =
      [("./e", ["./bad", "./good"]), ("./good", [])] := by
  refine ⟨⟨by decide, rfl⟩,
    c8_failed_inspection_is_local failProject "./bad" initialState (by decide) rfl, ?_, ?_⟩
  · simp [failProject, failEnv, initialState, buildDependencyTree, processImports,
      resolveImportPath, probeResolved, rewriteSpecifier, Project.inspect, FsEnv.isFile,
      mapSet, mapAddToSet, setAdd, extensions, String.join, strStartsWith, strDrop,
      List.isPrefixOf]
  · simp [failProject, failEnv, initialState, buildDependencyTree, processImports,
      resolveImportPath, probeResolved, rewriteSpecifier, Project.inspect, FsEnv.isFile,
      mapSet, mapAddToSet, setAdd, extensions, String.join, strStartsWith, strDrop,
      List.isPrefixOf]

/-- C9: every edge recorded in a graph produced by construction (from the
fresh empty state) points to a path that exists as a regular file at
probe time; unresolved and external specifiers are never recorded. -/
theorem c9_edges_reference_existing_files :
    ∀ (P : Project) (entry : String) (kl : String × List String) (t : String),
      kl ∈ (buildDependencyTree P entry initialState).dependencies → t ∈ kl.2 →
      P.env.isFile t = true := by
  intro P entry kl t hkl ht
  have hinit : edgesResolved P initialState := by
    intro kl' h' t' ht'
    simp [initialState] at h'
  exact buildDependencyTree_edgesResolved P entry initialState hinit kl hkl t ht

/-- C9 (witness): in the mutual-import project, the recorded edge
`./a → ./b` points to the regular file `./b`. -/
theorem c9_edges_reference_existing_files_witness :
    ("./a", ["./b"]) ∈ (buildDependencyTree pairProject "./a" initialState).dependencies ∧
    "./b" ∈ ["./b"] ∧
    pairProject.env.isFile "./b" = true := by
  have hkl : ("./a", ["./b"]) ∈
      (buildDependencyTree pairProject "./a" initialState).dependencies := by
    have : (buildDependencyTree pairProject "./a" initialState).dependencies =
        [("./a", ["./b"]), ("./b", ["./a"])] := by
      simp [pairProject, pairEnv, initialState, buildDependencyTree, processImports,
        resolveImportPath, probeResolved, rewriteSpecifier, Project.inspect, FsEnv.isFile,
        mapSet, mapAddToSet, setAdd, extensions, String.join, strStartsWith, strDrop,
        List.isPrefixOf]
    rw [this]
    exact List.mem_cons_self _ _
  exact ⟨hkl, by decide,
    c9_edges_reference_existing_files pairProject "./a" ("./a", ["./b"]) "./b" hkl
      (by decide)⟩

/-- C10: at every level of the impact tree produced by a full analysis
run, the files of a node's children form a subsequence of the dependency
graph's entry list in its build-recorded order (the order in which files
were first entered into the map during the depth-first construction). -/
theorem c10_children_follow_build_order :
    ∀ (P : Project) (entry cf ct : String) (mods : List String),
      ∀ n ∈ allNodes (analyzeFileChanges P entry cf ct mods),
        (n.children.map (·.file)).Sublist
          ((buildDependencyTree P entry initialState).dependencies.map Prod.fst) := by
  intro P entry cf ct mods n hn
  rw [analyzeFileChanges] at hn
  rw [allNodes_eq] at hn
  rcases List.mem_cons.mp hn with heq | hmem
  · subst heq
    exact impactAux_children_order (buildDependencyTree P entry initialState).dependencies
      (buildDependencyTree P entry initialState).exports mods cf ct
      (buildDependencyTree P entry initialState).dependencies []
      (List.Sublist.refl _)
  · exact impactAux_subnode_order (buildDependencyTree P entry initialState).dependencies
      (buildDependencyTree P entry initialState).exports mods cf ct
      (buildDependencyTree P entry initialState).dependencies []
      (List.Sublist.refl _) n hmem

/-- C10 (witness): the root of the end-to-end analysis of the
mutual-import project has its children in the build-recorded entry
order. -/
theorem c10_children_follow_build_order_witness :
    (⟨"./a", "modify", none,
        [⟨"./b", "affected", some "Modified exports: foo",
          [⟨"./a", "affected", some "File was modified", []⟩]⟩]⟩ : DependencyNode) ∈
      allNodes (analyzeFileChanges pairProject "./a" "./a" "modify" ["foo"]) ∧
    ([⟨"./b", "affected", some "Modified exports: foo",
        [⟨"./a", "affected", some "File was modified", []⟩]⟩] : List DependencyNode).map
        (·.file) = ["./b"] ∧
    (["./b"] : List String).Sublist
      ((buildDependencyTree pairProject "./a" initialState).dependencies.map Prod.fst) := by
  have hval : ("Modified exports: " ++ String.intercalate ", " ["foo"]) =
      "Modified exports: foo" := by decide
  have hmem : (⟨"./a", "modify", none,
      [⟨"./b", "affected", some "Modified exports: foo",
        [⟨"./a", "affected", some "File was modified", []⟩]⟩]⟩ : DependencyNode) ∈
      allNodes (analyzeFileChanges pairProject "./a" "./a" "modify" ["foo"]) := by
    simp [pairProject, pairEnv, initialState, analyzeFileChanges, analyzeImpact, impactAux,
      buildDependencyTree, processImports, resolveImportPath, probeResolved,
      rewriteSpecifier, Project.inspect, FsEnv.isFile, mapSet, mapAddToSet, setAdd,
      extensions, String.join, strStartsWith, strDrop, List.isPrefixOf,
      determineImpactReason, mapGet, hasExport, allNodes, allNodesList, hval]
  refine ⟨hmem, by simp, ?_⟩
  have h := c10_children_follow_build_order pairProject "./a" "./a" "modify" ["foo"] _ hmem
  simpa using h

end Analyzer
